/- Verification of the shop-management-system analytics and model layer.

   The definitions below are a shallow embedding of the Python source:
   `models.py` (Customer / Product / Order with validating setters),
   `analysis.py` (the flattening and the five report operations of
   DataAnalyzer) and `db.py` (Database.add_order over the order_items
   table with its composite primary key).

   Conventions of the embedding:
   - machine floats (`price REAL`) are modelled as exact rationals `Rat`;
   - `datetime` order dates are modelled as natural-number day indices;
   - a time-bucketing frequency (pandas resample rule such as day, week,
     month) is modelled as a monotone map from day index to bucket index;
   - Python regular-expression matching is modelled by direct matchers for
     the two concrete patterns of `models.py`; the `$` anchor is modelled
     faithfully to Python `re`: it also matches just before one final
     newline.  `\d` on a str pattern (no re.ASCII) is modelled as the
     Unicode decimal digits (category Nd, Unicode 14.0 as in CPython
     3.11), and `str.strip()` strips the full Python whitespace set;
   - raising an exception from a mutating method is modelled by returning
     the unchanged object paired with `Except.error`. -/
import Mathlib

namespace ShopSpec

/-! ### Character classes used by the `models.py` validation patterns -/

/-- ASCII digit, the literal range `0-9` inside a character class. -/
def isAsciiDigit (c : Char) : Bool := '0' ≤ c && c ≤ '9'

/-- First code points of the runs of ten consecutive decimal digits that
make up the Unicode category Nd (Unicode 14.0, as shipped with CPython
3.11); the mathematical alphanumeric block U+1D7CE-U+1D7FF is fifty
consecutive digits, listed as five aligned runs. -/
def ndRangeStarts : List Nat :=
  [0x30, 0x660, 0x6F0, 0x7C0, 0x966, 0x9E6, 0xA66, 0xAE6, 0xB66, 0xBE6,
   0xC66, 0xCE6, 0xD66, 0xDE6, 0xE50, 0xED0, 0xF20, 0x1040, 0x1090, 0x17E0,
   0x1810, 0x1946, 0x19D0, 0x1A80, 0x1A90, 0x1B50, 0x1BB0, 0x1C40, 0x1C50, 0xA620,
   0xA8D0, 0xA900, 0xA9D0, 0xA9F0, 0xAA50, 0xABF0, 0xFF10, 0x104A0, 0x10D30, 0x11066,
   0x110F0, 0x11136, 0x111D0, 0x112F0, 0x11450, 0x114D0, 0x11650, 0x116C0, 0x11730, 0x118E0,
   0x11950, 0x11C50, 0x11D50, 0x11DA0, 0x16A60, 0x16AC0, 0x16B50,
   0x1D7CE, 0x1D7D8, 0x1D7E2, 0x1D7EC, 0x1D7F6,
   0x1E140, 0x1E2F0, 0x1E950, 0x1FBF0]

/-- The pattern class `\d` of a Python str pattern without `re.ASCII`:
any Unicode decimal digit (category Nd). -/
def isUnicodeDigit (c : Char) : Bool :=
  ndRangeStarts.any (fun s => s ≤ c.toNat && c.toNat ≤ s + 9)

/-- The pattern class `[1-9]` of the phone pattern. -/
def isNonzeroDigit (c : Char) : Bool := '1' ≤ c && c ≤ '9'

/-- The pattern class `[a-zA-Z]`. -/
def isAsciiAlpha (c : Char) : Bool := ('a' ≤ c && c ≤ 'z') || ('A' ≤ c && c ≤ 'Z')

/-- The local-part class `[a-zA-Z0-9._%+-]` of the email pattern. -/
def isLocalChar (c : Char) : Bool :=
  isAsciiAlpha c || isAsciiDigit c || c == '.' || c == '_' || c == '%' || c == '+' || c == '-'

/-- The domain class `[a-zA-Z0-9.-]` of the email pattern. -/
def isDomainChar (c : Char) : Bool :=
  isAsciiAlpha c || isAsciiDigit c || c == '.' || c == '-'

/-- The code points Python `str.isspace` (and hence `str.strip()` with no
argument) treats as whitespace (CPython 3.11). -/
def pyWhitespaceCodes : List Nat :=
  [0x9, 0xA, 0xB, 0xC, 0xD, 0x1C, 0x1D, 0x1E, 0x1F, 0x20, 0x85, 0xA0, 0x1680,
   0x2000, 0x2001, 0x2002, 0x2003, 0x2004, 0x2005, 0x2006, 0x2007, 0x2008, 0x2009,
   0x200A, 0x2028, 0x2029, 0x202F, 0x205F, 0x3000]

/-- Python `str.strip` whitespace. -/
def isPyWhitespace (c : Char) : Bool := pyWhitespaceCodes.contains c.toNat

/-- Python `re` semantics of the `$` anchor: a full-pattern match may leave
one final newline unconsumed.  This strips that newline if present. -/
def pyDollarStrip (l : List Char) : List Char :=
  if l.getLast? = some '\n' then l.dropLast else l

/-- Python `str.strip()`: drop whitespace from both ends. -/
def pyStrip (l : List Char) : List Char :=
  ((l.dropWhile isPyWhitespace).reverse.dropWhile isPyWhitespace).reverse

/-! ### The `models.py` validators -/

/-- Matcher for `[1-9]\d{1,14}`: a nonzero ASCII digit (the literal class
`[1-9]`), then 1 to 14 Unicode decimal digits (`\d`). -/
def phoneBody : List Char → Bool
  | [] => false
  | d :: ds =>
      isNonzeroDigit d && ds.all isUnicodeDigit &&
      decide (1 ≤ ds.length) && decide (ds.length ≤ 14)

/-- Matcher for `\+?[1-9]\d{1,14}` anchored on both sides:
an optional leading plus sign, then the digit body. -/
def phoneCore (l : List Char) : Bool :=
  phoneBody (if l.head? = some '+' then l.tail else l)

/-- The phone setter's test `re.match(r'^\+?[1-9]\d{1,14}$', value)`. -/
def phoneMatch (s : String) : Bool := phoneCore (pyDollarStrip s.data)

/-- Matcher for `[a-zA-Z0-9._%+-]+@[a-zA-Z0-9.-]+\.[a-zA-Z]{2,}` anchored on
both sides.  Neither class contains `@`, so the matched `@` is the first one;
the top-level-domain part contains no dot, so the matched dot is the last
one after the `@`. -/
def emailCore (l : List Char) : Bool :=
  let lpart := l.takeWhile (fun c => !(c == '@'))
  match l.dropWhile (fun c => !(c == '@')) with
  | [] => false
  | _ :: dpart =>
      let revD := dpart.reverse
      let tld := (revD.takeWhile (fun c => !(c == '.'))).reverse
      match revD.dropWhile (fun c => !(c == '.')) with
      | [] => false
      | _ :: bRev =>
          let dom := bRev.reverse
          decide (1 ≤ lpart.length) && lpart.all isLocalChar &&
          decide (1 ≤ dom.length) && dom.all isDomainChar &&
          decide (2 ≤ tld.length) && tld.all isAsciiAlpha

/-- The email setter's test
`re.match(r'^[a-zA-Z0-9._%+-]+@[a-zA-Z0-9.-]+\.[a-zA-Z]{2,}$', value)`. -/
def emailMatch (s : String) : Bool := emailCore (pyDollarStrip s.data)

/-- The address setter's test `len(value.strip()) >= 5`. -/
def addressOk (s : String) : Bool := decide (5 ≤ (pyStrip s.data).length)

/-! ### The `models.py` entity types -/

/-- `models.Customer`: id plus the five validated text fields. -/
structure Customer where
  id : Nat
  first_name : String
  last_name : String
  email : String
  phone : String
  address : String
deriving DecidableEq

/-- The `Customer.email` setter: validate, then assign; on failure raise
`ValueError` leaving the object untouched. -/
def set_email (c : Customer) (v : String) : Customer × Except String Unit :=
  if emailMatch v then ({ c with email := v }, Except.ok ())
  else (c, Except.error "Invalid email format.")

/-- The `Customer.phone` setter. -/
def set_phone (c : Customer) (v : String) : Customer × Except String Unit :=
  if phoneMatch v then ({ c with phone := v }, Except.ok ())
  else (c, Except.error "Invalid phone number format.")

/-- The `Customer.address` setter. -/
def set_address (c : Customer) (v : String) : Customer × Except String Unit :=
  if addressOk v then ({ c with address := v }, Except.ok ())
  else (c, Except.error "Address is too short.")

/-- `models.Product`; `price REAL` is modelled as an exact rational. -/
structure Product where
  id : Nat
  name : String
  price : Rat
  category : String
deriving DecidableEq

/-- `models.Order`: the date is a day index, `items` is the ordered list of
(product, quantity) pairs. -/
structure Order where
  id : Nat
  customer_id : Nat
  order_date : Nat
  status : String
  items : List (Product × Int)
deriving DecidableEq

/-- `Order.add_product`: reject quantity below 1 with `ValueError`, else
append the line item at the end of `items`. -/
def add_product (o : Order) (p : Product) (q : Int) : Order × Except String Unit :=
  if q < 1 then (o, Except.error "Quantity must be at least 1.")
  else ({ o with items := o.items ++ [(p, q)] }, Except.ok ())

/-! ### `analysis.py`: the flattened per-line-item table -/

/-- One row of the DataFrame built by `DataAnalyzer.get_orders_dataframe`. -/
structure Row where
  order_id : Nat
  customer_id : Nat
  customer_name : String
  order_date : Nat
  status : String
  product_id : Nat
  product_name : String
  quantity : Int
  price : Rat
  total : Rat
deriving DecidableEq

/-- Lookup modelling `dict.get(key, default)` on a dict built by
comprehension from an association list: a later binding of the same key
overwrites an earlier one, hence the last matching pair wins. -/
def dictGet (m : List (Nat × String)) (k : Nat) (dflt : String) : String :=
  match (m.filter (fun p => p.1 == k)).getLast? with
  | some p => p.2
  | none => dflt

/-- The dict `{c.id: f"{c.first_name} {c.last_name}" for c in customers}`. -/
def customerDict (customers : List Customer) : List (Nat × String) :=
  customers.map (fun c => (c.id, c.first_name ++ " " ++ c.last_name))

/-- The dict `{p.id: p.name for p in products}`. -/
def productDict (products : List Product) : List (Nat × String) :=
  products.map (fun p => (p.id, p.name))

/-- The dict the loop body of `get_orders_dataframe` appends for one
order and one of its line items. -/
def mkRow (customers : List Customer) (products : List Product)
    (o : Order) (pq : Product × Int) : Row :=
  { order_id := o.id
    customer_id := o.customer_id
    customer_name := dictGet (customerDict customers) o.customer_id "Неизвестный"
    order_date := o.order_date
    status := o.status
    product_id := pq.1.id
    product_name := dictGet (productDict products) pq.1.id "Неизвестный товар"
    quantity := pq.2
    price := pq.1.price
    total := pq.1.price * (pq.2 : Rat) }

/-- `DataAnalyzer.get_orders_dataframe`: the nested loop over orders
(outer) and their line items (inner). -/
def get_orders_dataframe (customers : List Customer) (products : List Product)
    (orders : List Order) : List Row :=
  orders.flatMap (fun o => o.items.map (fun pq => mkRow customers products o pq))

/-! ### First-occurrence deduplication (pandas `unique` / `drop_duplicates`) -/

/-- Keep the first element of each key class, skipping keys already seen.
This is pandas `Series.unique` / `DataFrame.drop_duplicates` (keep first). -/
def uniqueFirstByAux {α β : Type} (key : α → β) [DecidableEq β]
    (seen : List β) : List α → List α
  | [] => []
  | a :: l =>
      if key a ∈ seen then uniqueFirstByAux key seen l
      else a :: uniqueFirstByAux key (key a :: seen) l

/-- First-occurrence deduplication of a list, pandas `unique`. -/
def uniqueFirst {α : Type} [DecidableEq α] (l : List α) : List α :=
  uniqueFirstByAux id [] l

/-- `df.drop_duplicates('order_id')`: one row per order id, first wins. -/
def dedupByOrderId (df : List Row) : List Row :=
  uniqueFirstByAux (fun r => r.order_id) [] df

/-! ### Top-N customers by distinct order count -/

/-- Lexicographic comparison of character lists by code point, the order
pandas `groupby` uses on string keys. -/
def charListLe : List Char → List Char → Bool
  | [], _ => true
  | _ :: _, [] => false
  | a :: as, b :: bs =>
      if a.toNat < b.toNat then true
      else if b.toNat < a.toNat then false
      else charListLe as bs

/-- Code-point lexicographic order on strings. -/
def strLe (a b : String) : Prop := charListLe a.data b.data = true

instance : DecidableRel strLe := fun _ _ => instDecidableEqBool _ _


/-- `df.groupby('customer_name')['order_id'].nunique()` for one group. -/
def nuniqueOrders (df : List Row) (name : String) : Nat :=
  (uniqueFirst ((df.filter (fun r => r.customer_name == name)).map (fun r => r.order_id))).length

/-- Descending order on the count component, the relation of
`sort_values(ascending=False)` on the counted groups. -/
def byCountDesc (a b : String × Nat) : Prop := b.2 ≤ a.2

instance : DecidableRel byCountDesc := fun a b => inferInstanceAs (Decidable (b.2 ≤ a.2))

instance : IsTotal (String × Nat) byCountDesc := ⟨fun a b => Nat.le_total b.2 a.2⟩

instance : IsTrans (String × Nat) byCountDesc := ⟨fun _ _ _ h1 h2 => le_trans h2 h1⟩

/-- `DataAnalyzer.top_customers_by_orders`: `None` models the explicit
no-data figure returned on an empty table; otherwise group by customer
name, count distinct order ids, sort descending, take the first `top_n`. -/
def top_customers_by_orders (df : List Row) (top_n : Nat) :
    Option (List (String × Nat)) :=
  if df.isEmpty then none
  else
    let names := List.insertionSort strLe
      (uniqueFirst (df.map (fun r => r.customer_name)))
    let counts := names.map (fun n => (n, nuniqueOrders df n))
    some ((List.insertionSort byCountDesc counts).take top_n)

/-! ### Order-volume time series (`orders_dynamics`) -/

/-- Fold of `min` over a list with a start value. -/
def natsMin (d : Nat) (l : List Nat) : Nat := l.foldl min d

/-- Fold of `max` over a list with a start value. -/
def natsMax (d : Nat) (l : List Nat) : Nat := l.foldl max d

/-- Smallest order date of the deduplicated table (the resample range start). -/
def minDate (df : List Row) : Nat :=
  match dedupByOrderId df with
  | [] => 0
  | r :: rs => natsMin r.order_date (rs.map (fun x => x.order_date))

/-- Largest order date of the deduplicated table (the resample range end). -/
def maxDate (df : List Row) : Nat :=
  match dedupByOrderId df with
  | [] => 0
  | r :: rs => natsMax r.order_date (rs.map (fun x => x.order_date))

/-- `unique_orders.set_index('order_date').resample(period).size()`: one
bucket for every period index from the first to the last observed one
(dense, zero-count buckets included), each counting the deduplicated
orders falling in it.  `b` maps a day index to its bucket index. -/
def bucketCounts (b : Nat → Nat) (df : List Row) : List (Nat × Nat) :=
  let u := dedupByOrderId df
  (List.range' (b (minDate df)) (b (maxDate df) + 1 - b (minDate df))).map
    (fun k => (k, (u.filter (fun x => b x.order_date == k)).length))

/-- `DataAnalyzer.orders_dynamics`: `None` models the explicit no-data
figure on an empty table; otherwise drop duplicate order ids (first
occurrence wins) and resample densely by the bucket map `b`. -/
def orders_dynamics (b : Nat → Nat) (df : List Row) : Option (List (Nat × Nat)) :=
  if df.isEmpty then none else some (bucketCounts b df)

/-! ### Customer-similarity graph (`customer_connections_graph`) -/

/-- `df['customer_id'].unique()`: the customers in first-appearance order. -/
def customerIdsOf (df : List Row) : List Nat :=
  uniqueFirst (df.map (fun r => r.customer_id))

/-- `set(df[df['customer_id'] == c]['product_id'].unique())`. -/
def productSetOf (df : List Row) (c : Nat) : Finset Nat :=
  ((df.filter (fun r => r.customer_id == c)).map (fun r => r.product_id)).toFinset

/-- `df[df['customer_id'] == c]['customer_name'].iloc[0]`: the name on the
first row of that customer. -/
def labelOf (df : List Row) (c : Nat) : String :=
  match df.find? (fun r => r.customer_id == c) with
  | some r => r.customer_name
  | none => ""

/-- The graph nodes: customer id, label, size (distinct-product count). -/
def nodesOf (df : List Row) : List (Nat × String × Nat) :=
  (customerIdsOf df).map (fun c => (c, labelOf df c, (productSetOf df c).card))

/-- All index pairs `i < j` of a list, in the nested-loop order of the
source: `(l[i], l[j])` for `i` ascending and `j > i` ascending. -/
def pairsOf : List Nat → List (Nat × Nat)
  | [] => []
  | a :: l => l.map (fun b => (a, b)) ++ pairsOf l

/-- The edges: for each customer pair whose distinct-product sets share at
least `t` products, an edge weighted by the intersection size. -/
def edgesOf (t : Nat) (df : List Row) : List (Nat × Nat × Nat) :=
  (pairsOf (customerIdsOf df)).filterMap (fun ab =>
    if t ≤ (productSetOf df ab.1 ∩ productSetOf df ab.2).card
    then some (ab.1, ab.2, (productSetOf df ab.1 ∩ productSetOf df ab.2).card)
    else none)

/-- Result of `customer_connections_graph`: the no-data figure of an empty
table, the insufficient-data figure of an edgeless graph, or the rendered
graph with its nodes and weighted edges. -/
inductive GraphResult where
  | noData : GraphResult
  | insufficientData : GraphResult
  | graph : List (Nat × String × Nat) → List (Nat × Nat × Nat) → GraphResult
deriving DecidableEq

/-- `DataAnalyzer.customer_connections_graph` with threshold `t`
(`min_common_products`, default 2 in the source). -/
def customer_connections_graph (t : Nat) (df : List Row) : GraphResult :=
  if df.isEmpty then GraphResult.noData
  else if (edgesOf t df).isEmpty then GraphResult.insufficientData
  else GraphResult.graph (nodesOf df) (edgesOf t df)

/-! ### Sales breakdown (`sales_by_category`) -/

/-- Descending order on the summed-sales component. -/
def bySumDesc (a b : String × Rat) : Prop := b.2 ≤ a.2

instance : DecidableRel bySumDesc := fun a b => inferInstanceAs (Decidable (b.2 ≤ a.2))

instance : IsTotal (String × Rat) bySumDesc := ⟨fun a b => le_total b.2 a.2⟩

instance : IsTrans (String × Rat) bySumDesc := ⟨fun _ _ _ h1 h2 => le_trans h2 h1⟩

/-- `df.groupby('product_name')['total'].sum().sort_values(ascending=False)`. -/
def salesGroups (df : List Row) : List (String × Rat) :=
  let names := List.insertionSort strLe
    (uniqueFirst (df.map (fun r => r.product_name)))
  List.insertionSort bySumDesc
    (names.map (fun n =>
      (n, ((df.filter (fun r => r.product_name == n)).map (fun r => r.total)).sum)))

/-- The label of the collapsed tail bucket in the source. -/
def otherLabel : String := "Другие"

/-- `DataAnalyzer.sales_by_category`: `None` models the explicit no-data
figure; with more than 10 groups the tail beyond the 10th is collapsed
into the bucket `"Другие"`.  `top_categories['Другие'] = other_sales` is a
pandas Series assignment: it overwrites an existing entry of that name and
only otherwise appends a new one at the end. -/
def sales_by_category (df : List Row) : Option (List (String × Rat)) :=
  if df.isEmpty then none
  else
    let g := salesGroups df
    if 10 < g.length then
      let top := g.take 10
      let rest := ((g.drop 10).map (fun p => p.2)).sum
      if top.any (fun p => p.1 == otherLabel) then
        some (top.map (fun p => if p.1 == otherLabel then (p.1, rest) else p))
      else some (top ++ [(otherLabel, rest)])
    else some g

/-! ### Geographic distribution (`customer_geography`) -/

/-- The city heuristic
`x.split(',')[0].strip() if ',' in x else x.strip()`. -/
def cityOf (addr : String) : String :=
  if addr.data.contains ',' then
    String.mk (pyStrip (addr.data.takeWhile (fun c => !(c == ','))))
  else String.mk (pyStrip addr.data)

/-- `DataAnalyzer.customer_geography`: built from the customers table
alone; `None` models the explicit no-data figure on an empty customer set.
Counts customers per derived city (`value_counts`, descending), keeping at
most the top 15. -/
def customer_geography (customers : List Customer) : Option (List (String × Nat)) :=
  if customers.isEmpty then none
  else
    let cities := customers.map (fun c => cityOf c.address)
    let counts := (uniqueFirst cities).map (fun c => (c, cities.count c))
    let sorted := List.insertionSort byCountDesc counts
    some (if 15 < sorted.length then sorted.take 15 else sorted)

/-! ### `db.py`: `Database.add_order` and the `order_items` composite key -/

/-- One row of the `order_items` table. -/
structure ItemRow where
  order_id : Nat
  product_id : Nat
  quantity : Int
deriving DecidableEq

/-- The durable state touched by `add_order`: the `orders` rows, the
`order_items` rows, and the next AUTOINCREMENT order id. -/
structure DbState where
  next_order_id : Nat
  orders : List (Nat × Nat × Nat × String)
  order_items : List ItemRow
deriving DecidableEq

/-- The insert loop over `order.items`: each `INSERT INTO order_items`
fails with an `IntegrityError` when the composite primary key
`(order_id, product_id)` is already present. -/
def insertOrderItems (oid : Nat) (tbl : List ItemRow) :
    List (Product × Int) → Option (List ItemRow)
  | [] => some tbl
  | pq :: rest =>
      if tbl.any (fun it => it.order_id == oid && it.product_id == pq.1.id) then none
      else insertOrderItems oid (tbl ++ [⟨oid, pq.1.id, pq.2⟩]) rest

/-- `Database.add_order`: insert the order row, then its items; on an
`sqlite3.Error` the caught-error branch returns the sentinel `-1` and the
transaction is never committed, so the durable state is unchanged;
otherwise commit and return the new order id. -/
def add_order (db : DbState) (o : Order) : Int × DbState :=
  let oid := db.next_order_id
  match insertOrderItems oid db.order_items o.items with
  | none => (-1, db)
  | some tbl =>
      ((oid : Int),
       { next_order_id := oid + 1
         orders := db.orders ++ [(oid, o.customer_id, o.order_date, o.status)]
         order_items := tbl })

/-- The product ids already present in the `order_items` table under a
given order id (the first components of the composite keys with that id). -/
def oidPids (oid : Nat) (tbl : List ItemRow) : List Nat :=
  (tbl.filter (fun it => it.order_id == oid)).map (fun it => it.product_id)

/-! ### Spec-side definitions and sample data -/

/-- The phone contract exactly as the spec words it (claim C8): an
optional leading plus sign followed by 2 to 15 digits.  This definition
follows the spec's words, to be compared against the source matcher
`phoneMatch`. -/
def phoneSpecPattern (s : String) : Bool :=
  let core := match s.data with
    | '+' :: r => r
    | r => r
  core.all isAsciiDigit && decide (2 ≤ core.length) && decide (core.length ≤ 15)

/-- A concrete valid customer used by witnesses and counterexamples. -/
def cxCustomer : Customer :=
  { id := 1, first_name := "Иван", last_name := "Иванов",
    email := "ivan@example.com", phone := "+79123456789",
    address := "Москва, ул. Пушкина" }

/-- A concrete product used by witnesses and counterexamples. -/
def cxProduct : Product := { id := 7, name := "Ноутбук", price := 2, category := "Электроника" }

/-- A concrete order (customer id 1, one line item) used by witnesses and
counterexamples. -/
def cxOrder : Order :=
  { id := 1, customer_id := 1, order_date := 0, status := "новый",
    items := [(cxProduct, 3)] }

/-- A flattened-table row with the fields the report operations inspect;
quantity is fixed to 1 so the line total equals the unit price. -/
def sampleRow (oid cid : Nat) (cname : String) (odate pid : Nat)
    (pname : String) (t : Rat) : Row :=
  { order_id := oid, customer_id := cid, customer_name := cname,
    order_date := odate, status := "", product_id := pid,
    product_name := pname, quantity := 1, price := t, total := t }

/-- Sample table: customer A with two distinct orders, B with one. -/
def dfTop : List Row :=
  [sampleRow 1 1 "A" 0 1 "P" 1, sampleRow 2 1 "A" 0 1 "P" 1,
   sampleRow 3 2 "B" 0 1 "P" 1]

/-- Sample table: customers 1 and 2 each bought the single product 5. -/
def dfPair : List Row :=
  [sampleRow 1 1 "A" 0 5 "P" 1, sampleRow 2 2 "B" 0 5 "P" 1]

/-- Sample table: three orders on days 0, 1, 2 (one per day). -/
def dfDyn : List Row :=
  [sampleRow 1 1 "A" 0 1 "P" 1, sampleRow 2 1 "A" 1 1 "P" 1,
   sampleRow 3 1 "A" 2 1 "P" 1]

/-- Sample table: orders on days 0 and 2 with day 1 skipped. -/
def dfGap : List Row :=
  [sampleRow 1 1 "A" 0 1 "P" 1, sampleRow 2 1 "A" 2 1 "P" 1]

/-- Sample table: 11 distinct products with pairwise distinct totals. -/
def dfSales11 : List Row :=
  [sampleRow 1 1 "c" 0 1 "A" 12, sampleRow 2 1 "c" 0 2 "B" 11, sampleRow 3 1 "c" 0 3 "C" 10,
   sampleRow 4 1 "c" 0 4 "D" 9, sampleRow 5 1 "c" 0 5 "E" 8, sampleRow 6 1 "c" 0 6 "F" 7,
   sampleRow 7 1 "c" 0 7 "G" 6, sampleRow 8 1 "c" 0 8 "H" 5, sampleRow 9 1 "c" 0 9 "I" 4,
   sampleRow 10 1 "c" 0 10 "J" 3, sampleRow 11 1 "c" 0 11 "K" 2]

/-- Sample table: as `dfSales11`, but the highest-grossing product is
itself named `"Другие"`, the collapsed-tail label. -/
def dfSalesOv : List Row :=
  [sampleRow 1 1 "c" 0 1 "Другие" 12, sampleRow 2 1 "c" 0 2 "B" 11, sampleRow 3 1 "c" 0 3 "C" 10,
   sampleRow 4 1 "c" 0 4 "D" 9, sampleRow 5 1 "c" 0 5 "E" 8, sampleRow 6 1 "c" 0 6 "F" 7,
   sampleRow 7 1 "c" 0 7 "G" 6, sampleRow 8 1 "c" 0 8 "H" 5, sampleRow 9 1 "c" 0 9 "I" 4,
   sampleRow 10 1 "c" 0 10 "J" 3, sampleRow 11 1 "c" 0 11 "K" 2]

/-- A variant of `cxOrder` with two line items of the same product id. -/
def cxOrderDup : Order :=
  { cxOrder with items := [(cxProduct, 1), (cxProduct, 2)] }

/-- A concrete database state used by witnesses. -/
def cxDb : DbState := { next_order_id := 5, orders := [], order_items := [] }

/-! ## Helper lemmas -/

theorem mem_of_mem_uniqueFirstByAux {α β : Type} (key : α → β) [DecidableEq β] :
    ∀ (l : List α) (seen : List β) (a : α), a ∈ uniqueFirstByAux key seen l → a ∈ l := by
  intro l
  induction l with
  | nil => intro seen a h; simp [uniqueFirstByAux] at h
  | cons x l ih =>
      intro seen a h
      simp only [uniqueFirstByAux] at h
      by_cases hx : key x ∈ seen
      · simp [hx] at h
        exact List.mem_cons_of_mem x (ih seen a h)
      · simp [hx] at h
        rcases h with h | h
        · simp [h]
        · exact List.mem_cons_of_mem x (ih _ a h)

theorem map_key_uniqueFirstByAux {α β : Type} (key : α → β) [DecidableEq β] :
    ∀ (l : List α) (seen : List β),
      (uniqueFirstByAux key seen l).map key = uniqueFirstByAux id seen (l.map key) := by
  intro l
  induction l with
  | nil => intro seen; simp [uniqueFirstByAux]
  | cons x l ih =>
      intro seen
      simp only [uniqueFirstByAux, List.map_cons]
      by_cases hx : key x ∈ seen
      · simp [hx, ih]
      · simp [hx, ih]

theorem mem_uniqueFirstByAux_id {α : Type} [DecidableEq α] :
    ∀ (l : List α) (seen : List α) (a : α),
      a ∈ uniqueFirstByAux id seen l ↔ a ∈ l ∧ a ∉ seen := by
  intro l
  induction l with
  | nil => intro seen a; simp [uniqueFirstByAux]
  | cons x l ih =>
      intro seen a
      simp only [uniqueFirstByAux, id]
      by_cases hx : x ∈ seen
      · simp only [hx, if_true, ih, List.mem_cons]
        constructor
        · rintro ⟨h1, h2⟩; exact ⟨Or.inr h1, h2⟩
        · rintro ⟨h1 | h1, h2⟩
          · exact absurd (h1 ▸ hx) h2
          · exact ⟨h1, h2⟩
      · simp only [hx, if_false, List.mem_cons, ih]
        constructor
        · rintro (rfl | ⟨h1, h2⟩)
          · exact ⟨Or.inl rfl, hx⟩
          · exact ⟨Or.inr h1, fun hc => h2 (Or.inr hc)⟩
        · rintro ⟨rfl | h1, h2⟩
          · exact Or.inl rfl
          · by_cases hax : a = x
            · exact Or.inl hax
            · exact Or.inr ⟨h1, by simp [hax, h2]⟩

theorem nodup_uniqueFirstByAux_id {α : Type} [DecidableEq α] :
    ∀ (l : List α) (seen : List α), (uniqueFirstByAux id seen l).Nodup := by
  intro l
  induction l with
  | nil => intro seen; simp [uniqueFirstByAux]
  | cons x l ih =>
      intro seen
      simp only [uniqueFirstByAux, id]
      by_cases hx : x ∈ seen
      · simp [hx, ih]
      · simp only [hx, if_false, List.nodup_cons]
        refine ⟨fun hc => ?_, ih _⟩
        exact ((mem_uniqueFirstByAux_id l (x :: seen) x).mp hc).2 (List.mem_cons_self x seen)

theorem mem_uniqueFirst {α : Type} [DecidableEq α] (l : List α) (a : α) :
    a ∈ uniqueFirst l ↔ a ∈ l := by
  simp [uniqueFirst, mem_uniqueFirstByAux_id]

theorem nodup_uniqueFirst {α : Type} [DecidableEq α] (l : List α) :
    (uniqueFirst l).Nodup := nodup_uniqueFirstByAux_id l []

theorem toFinset_uniqueFirst {α : Type} [DecidableEq α] (l : List α) :
    (uniqueFirst l).toFinset = l.toFinset := by
  ext a
  simp [List.mem_toFinset, mem_uniqueFirst]

theorem length_uniqueFirst {α : Type} [DecidableEq α] (l : List α) :
    (uniqueFirst l).length = l.toFinset.card := by
  rw [← toFinset_uniqueFirst, List.toFinset_card_of_nodup (nodup_uniqueFirst l)]

theorem filter_uniqueFirstByAux {α β : Type} (key : α → β) [DecidableEq β] :
    ∀ (l : List α) (seen : List β) (k : β),
      (uniqueFirstByAux key seen l).filter (fun a => key a == k) =
        if k ∈ seen then [] else (l.filter (fun a => key a == k)).take 1 := by
  intro l
  induction l with
  | nil => intro seen k; simp [uniqueFirstByAux]
  | cons x l ih =>
      intro seen k
      simp only [uniqueFirstByAux]
      by_cases hx : key x ∈ seen
      · rw [if_pos hx, ih]
        by_cases hk : k ∈ seen
        · simp [hk]
        · have hne : (key x == k) = false := by
            by_cases h : key x = k
            · exact absurd (h ▸ hx) hk
            · simp [h]
          simp [hk, List.filter_cons, hne]
      · rw [if_neg hx]
        by_cases hxk : key x = k
        · subst hxk
          rw [List.filter_cons]
          simp only [beq_self_eq_true, if_true]
          rw [ih]
          have : key x ∈ key x :: seen := List.mem_cons_self _ _
          simp [this, hx, List.filter_cons]
        · have hne : (key x == k) = false := by simp [hxk]
          rw [List.filter_cons, hne]
          simp only [Bool.false_eq_true, if_false]
          rw [ih]
          have hseen : (k ∈ key x :: seen) ↔ (k ∈ seen) := by
            constructor
            · intro h
              rcases List.mem_cons.mp h with h | h
              · exact absurd h.symm hxk
              · exact h
            · exact fun h => List.mem_cons_of_mem _ h
          by_cases hk : k ∈ seen
          · simp [hk, hseen]
          · have : k ∉ key x :: seen := by simp [hseen, hk]
            simp [hk, this, List.filter_cons, hne]

theorem uniqueFirstByAux_cons_of_nil_seen {α β : Type} (key : α → β) [DecidableEq β]
    (a : α) (l : List α) :
    uniqueFirstByAux key [] (a :: l) = a :: uniqueFirstByAux key [key a] l := by
  simp [uniqueFirstByAux]

theorem dictGet_eq_default (m : List (Nat × String)) (k : Nat) (d : String)
    (h : k ∉ m.map Prod.fst) : dictGet m k d = d := by
  have hfil : m.filter (fun p => p.1 == k) = [] := by
    rw [List.filter_eq_nil_iff]
    intro p hp
    simp only [beq_iff_eq]
    intro hpk
    exact h (List.mem_map.mpr ⟨p, hp, hpk⟩)
  simp [dictGet, hfil]

theorem dictGet_eq_of_mem (m : List (Nat × String)) (k : Nat) (d : String)
    (h : k ∈ m.map Prod.fst) : ∃ p ∈ m, p.1 = k ∧ dictGet m k d = p.2 := by
  obtain ⟨q, hq, hqk⟩ := List.mem_map.mp h
  have hqf : q ∈ m.filter (fun p => p.1 == k) :=
    List.mem_filter.mpr ⟨hq, by simp [hqk]⟩
  have hne : m.filter (fun p => p.1 == k) ≠ [] := List.ne_nil_of_mem hqf
  have hp : (m.filter (fun p => p.1 == k)).getLast? =
      some ((m.filter (fun p => p.1 == k)).getLast hne) :=
    List.getLast?_eq_getLast _ hne
  have hpl : (m.filter (fun p => p.1 == k)).getLast hne ∈ m.filter (fun p => p.1 == k) :=
    List.getLast_mem hne
  have hpm := List.mem_filter.mp hpl
  refine ⟨_, hpm.1, by simpa using hpm.2, ?_⟩
  simp only [dictGet]
  rw [hp]

theorem natsMin_le_init (l : List Nat) : ∀ d : Nat, natsMin d l ≤ d := by
  induction l with
  | nil => intro d; simp [natsMin]
  | cons x l ih =>
      intro d
      calc natsMin d (x :: l) = natsMin (min d x) l := rfl
        _ ≤ min d x := ih (min d x)
        _ ≤ d := min_le_left _ _

theorem natsMin_le_mem (l : List Nat) : ∀ (d x : Nat), x ∈ l → natsMin d l ≤ x := by
  induction l with
  | nil => intro d x h; simp at h
  | cons y l ih =>
      intro d x h
      rcases List.mem_cons.mp h with rfl | h
      · calc natsMin d (x :: l) = natsMin (min d x) l := rfl
          _ ≤ min d x := natsMin_le_init l (min d x)
          _ ≤ x := min_le_right _ _
      · exact ih (min d y) x h

theorem init_le_natsMax (l : List Nat) : ∀ d : Nat, d ≤ natsMax d l := by
  induction l with
  | nil => intro d; simp [natsMax]
  | cons x l ih =>
      intro d
      calc d ≤ max d x := le_max_left _ _
        _ ≤ natsMax (max d x) l := ih (max d x)
        _ = natsMax d (x :: l) := rfl

theorem mem_le_natsMax (l : List Nat) : ∀ (d x : Nat), x ∈ l → x ≤ natsMax d l := by
  induction l with
  | nil => intro d x h; simp at h
  | cons y l ih =>
      intro d x h
      rcases List.mem_cons.mp h with rfl | h
      · calc x ≤ max d x := le_max_right _ _
          _ ≤ natsMax (max d x) l := init_le_natsMax l (max d x)
          _ = natsMax d (x :: l) := rfl
      · exact ih (max d y) x h

theorem sum_map_ite_eq_single {β M : Type} [DecidableEq β] [AddCommMonoid M]
    (x : β) (v : M) :
    ∀ ks : List β, ks.Nodup → x ∈ ks →
      (ks.map (fun k => if x == k then v else 0)).sum = v := by
  intro ks
  induction ks with
  | nil => intro _ hx; simp at hx
  | cons y ks ih =>
      intro hk hx
      rcases List.mem_cons.mp hx with rfl | hx2
      · have hz : ∀ m ∈ ks.map (fun k => if x == k then v else 0), m = 0 := by
          intro m hm
          obtain ⟨k, hkk, rfl⟩ := List.mem_map.mp hm
          have hne : x ≠ k := fun hh => (List.nodup_cons.mp hk).1 (hh ▸ hkk)
          simp [hne]
        simp only [List.map_cons, List.sum_cons, beq_self_eq_true, if_true]
        rw [List.sum_eq_zero hz, add_zero]
      · have hxy : x ≠ y := by
          intro hh
          exact (List.nodup_cons.mp hk).1 (hh ▸ hx2)
        simp only [List.map_cons, List.sum_cons]
        rw [if_neg (by simpa using hxy), ih (List.nodup_cons.mp hk).2 hx2, zero_add]

theorem sum_map_filter_partition {α β M : Type} [DecidableEq β] [AddCommMonoid M]
    (val : α → M) (key : α → β) :
    ∀ (u : List α) (ks : List β), ks.Nodup → (∀ x ∈ u, key x ∈ ks) →
      (ks.map (fun k => ((u.filter (fun x => key x == k)).map val).sum)).sum
        = (u.map val).sum := by
  intro u
  induction u with
  | nil => intro ks _ _; simp
  | cons a u ih =>
      intro ks hk hcov
      have hcov' : ∀ x ∈ u, key x ∈ ks := fun x hx => hcov x (List.mem_cons_of_mem a hx)
      have hak : key a ∈ ks := hcov a (List.mem_cons_self a u)
      have hpt : ∀ k ∈ ks,
          (((a :: u).filter (fun x => key x == k)).map val).sum
            = (if key a == k then val a else 0)
              + ((u.filter (fun x => key x == k)).map val).sum := by
        intro k _
        by_cases h : key a = k
        · simp [List.filter_cons, h]
        · simp [List.filter_cons, h]
      rw [List.map_congr_left hpt, List.sum_map_add, sum_map_ite_eq_single (key a) (val a) ks hk hak,
        ih ks hk hcov', List.map_cons, List.sum_cons]

theorem length_filter_partition {α β : Type} [DecidableEq β]
    (key : α → β) (u : List α) (ks : List β) (hk : ks.Nodup)
    (hcov : ∀ x ∈ u, key x ∈ ks) :
    (ks.map (fun k => (u.filter (fun x => key x == k)).length)).sum = u.length := by
  have hlen : ∀ v : List α, (v.map (fun _ => (1 : Nat))).sum = v.length := by
    intro v
    induction v with
    | nil => simp
    | cons b v ihv => simp [ihv, Nat.add_comm]
  have h := sum_map_filter_partition (fun _ => (1 : Nat)) key u ks hk hcov
  rw [List.map_congr_left (fun k _ => by rw [hlen]), hlen] at h
  exact h

theorem mem_pairsOf_iff (x : Nat) (l : List Nat) (p q : Nat) :
    (p, q) ∈ pairsOf (x :: l) ↔ ((p = x ∧ q ∈ l) ∨ (p, q) ∈ pairsOf l) := by
  simp only [pairsOf, List.mem_append, List.mem_map]
  constructor
  · rintro (⟨c, hc, heq⟩ | h)
    · cases heq
      exact Or.inl ⟨rfl, hc⟩
    · exact Or.inr h
  · rintro (⟨rfl, hq⟩ | h)
    · exact Or.inl ⟨q, hq, rfl⟩
    · exact Or.inr h

theorem mem_pairsOf_imp : ∀ (l : List Nat) (p q : Nat),
    (p, q) ∈ pairsOf l → p ∈ l ∧ q ∈ l := by
  intro l
  induction l with
  | nil => intro p q h; simp [pairsOf] at h
  | cons a l ih =>
      intro p q h
      rcases (mem_pairsOf_iff a l p q).mp h with ⟨rfl, hq⟩ | h
      · exact ⟨List.mem_cons_self _ _, List.mem_cons_of_mem _ hq⟩
      · have := ih p q h
        exact ⟨List.mem_cons_of_mem _ this.1, List.mem_cons_of_mem _ this.2⟩

theorem pairsOf_exactly_one : ∀ (l : List Nat), l.Nodup → ∀ a b : Nat,
    a ∈ l → b ∈ l → a ≠ b →
      (((a, b) ∈ pairsOf l ∨ (b, a) ∈ pairsOf l) ∧
        ¬ ((a, b) ∈ pairsOf l ∧ (b, a) ∈ pairsOf l)) := by
  intro l
  induction l with
  | nil => intro _ a b ha; simp at ha
  | cons x l ih =>
      intro hnd a b ha hb hab
      have hx : x ∉ l := (List.nodup_cons.mp hnd).1
      have hl : l.Nodup := (List.nodup_cons.mp hnd).2
      rcases List.mem_cons.mp ha with rfl | ha2
      · have hbl : b ∈ l := by
          rcases List.mem_cons.mp hb with rfl | h
          · exact absurd rfl hab
          · exact h
        refine ⟨Or.inl ((mem_pairsOf_iff a l a b).mpr (Or.inl ⟨rfl, hbl⟩)), ?_⟩
        rintro ⟨-, hba⟩
        rcases (mem_pairsOf_iff a l b a).mp hba with ⟨rfl, -⟩ | h
        · exact hab rfl
        · exact hx (mem_pairsOf_imp l b a h).2
      · rcases List.mem_cons.mp hb with rfl | hb2
        · refine ⟨Or.inr ((mem_pairsOf_iff b l b a).mpr (Or.inl ⟨rfl, ha2⟩)), ?_⟩
          rintro ⟨hab2, -⟩
          rcases (mem_pairsOf_iff b l a b).mp hab2 with ⟨rfl, -⟩ | h
          · exact hab rfl
          · exact hx (mem_pairsOf_imp l a b h).2
        · have hiff1 : (a, b) ∈ pairsOf (x :: l) ↔ (a, b) ∈ pairsOf l := by
            rw [mem_pairsOf_iff]
            constructor
            · rintro (⟨rfl, -⟩ | h)
              · exact absurd ha2 hx
              · exact h
            · exact Or.inr
          have hiff2 : (b, a) ∈ pairsOf (x :: l) ↔ (b, a) ∈ pairsOf l := by
            rw [mem_pairsOf_iff]
            constructor
            · rintro (⟨rfl, -⟩ | h)
              · exact absurd hb2 hx
              · exact h
            · exact Or.inr
          have := ih hl a b ha2 hb2 hab
          rw [hiff1, hiff2]
          exact this

theorem conflict_any_iff (oid pid : Nat) (tbl : List ItemRow) :
    (tbl.any (fun it => it.order_id == oid && it.product_id == pid) = true)
      ↔ pid ∈ oidPids oid tbl := by
  simp only [List.any_eq_true, Bool.and_eq_true, beq_iff_eq, oidPids, List.mem_map,
    List.mem_filter]
  constructor
  · rintro ⟨it, hit, h1, h2⟩
    exact ⟨it, ⟨hit, by simp [h1]⟩, h2⟩
  · rintro ⟨it, ⟨hit, h1⟩, h2⟩
    exact ⟨it, hit, by simpa using h1, h2⟩

theorem oidPids_append_one (oid pid : Nat) (q : Int) (tbl : List ItemRow) :
    oidPids oid (tbl ++ [⟨oid, pid, q⟩]) = oidPids oid tbl ++ [pid] := by
  simp [oidPids, List.filter_append]

theorem insertOrderItems_none_iff (oid : Nat) :
    ∀ (items : List (Product × Int)) (tbl : List ItemRow),
      (insertOrderItems oid tbl items = none ↔
        ¬ ((items.map (fun pq => pq.1.id)).Nodup ∧
            ∀ x ∈ items.map (fun pq => pq.1.id), x ∉ oidPids oid tbl)) := by
  intro items
  induction items with
  | nil => intro tbl; simp [insertOrderItems]
  | cons pq rest ih =>
      intro tbl
      simp only [insertOrderItems]
      by_cases hc : pq.1.id ∈ oidPids oid tbl
      · rw [if_pos ((conflict_any_iff oid pq.1.id tbl).mpr hc)]
        constructor
        · rintro - ⟨-, hall⟩
          exact hall pq.1.id (by simp) hc
        · intro _
          rfl
      · rw [if_neg (fun hh => hc ((conflict_any_iff oid pq.1.id tbl).mp hh)),
          ih (tbl ++ [ItemRow.mk oid pq.1.id pq.2]), oidPids_append_one]
        refine not_congr ?_
        constructor
        · rintro ⟨hnd, hall⟩
          have hnotin : pq.1.id ∉ rest.map (fun pq => pq.1.id) := by
            intro hmem
            exact (hall pq.1.id hmem) (List.mem_append.mpr (Or.inr (List.mem_singleton.mpr rfl)))
          constructor
          · rw [List.map_cons]
            exact List.nodup_cons.mpr ⟨hnotin, hnd⟩
          · intro x hx
            rw [List.map_cons] at hx
            rcases List.mem_cons.mp hx with rfl | hx2
            · exact hc
            · exact fun hxt => (hall x hx2) (List.mem_append.mpr (Or.inl hxt))
        · rintro ⟨hnd, hall⟩
          rw [List.map_cons] at hnd
          refine ⟨(List.nodup_cons.mp hnd).2, ?_⟩
          intro x hx hmem
          rcases List.mem_append.mp hmem with hxt | hxs
          · exact (hall x (by rw [List.map_cons]; exact List.mem_cons_of_mem _ hx)) hxt
          · exact (List.nodup_cons.mp hnd).1 (List.mem_singleton.mp hxs ▸ hx)

theorem flatMap_index {α β : Type} (f : α → List β) :
    ∀ (l : List α) (i : Nat) (hi : i < l.length) (j : Nat) (hj : j < (f (l.get ⟨i, hi⟩)).length),
      (l.flatMap f)[((l.take i).map (fun a => (f a).length)).sum + j]?
        = some ((f (l.get ⟨i, hi⟩)).get ⟨j, hj⟩) := by
  intro l
  induction l with
  | nil => intro i hi; simp at hi
  | cons a l ih =>
      intro i hi j hj
      cases i with
      | zero =>
          simp only [List.take_zero, List.map_nil, List.sum_nil, Nat.zero_add, List.flatMap_cons]
          rw [List.getElem?_append_left (by simpa using hj)]
          simp only [List.get_eq_getElem] at hj
          simp [List.getElem?_eq_getElem, hj]
      | succ i' =>
          have hi' : i' < l.length := Nat.lt_of_succ_lt_succ hi
          simp only [List.flatMap_cons, List.take_succ_cons, List.map_cons, List.sum_cons]
          rw [Nat.add_assoc, List.getElem?_append_right (Nat.le_add_right _ _),
            Nat.add_sub_cancel_left]
          exact ih i' hi' j hj

/-! ## Claim C7: setter validation atomicity -/

/-- C7: for every customer and every input value, each of the email,
phone and address setters accepts the value iff it matches that field's
contract (the embedded check of the source); a non-matching input yields
exactly the source's validation error and returns the customer object
unchanged, so the previously stored valid value of the field survives. -/
theorem claim_C7_setter_validation (c : Customer) (v : String) :
    (((set_email c v).2 = Except.ok ()) ↔ emailMatch v = true) ∧
    (emailMatch v = true → set_email c v = ({ c with email := v }, Except.ok ())) ∧
    (emailMatch v = false → set_email c v = (c, Except.error "Invalid email format.")) ∧
    (((set_phone c v).2 = Except.ok ()) ↔ phoneMatch v = true) ∧
    (phoneMatch v = true → set_phone c v = ({ c with phone := v }, Except.ok ())) ∧
    (phoneMatch v = false → set_phone c v = (c, Except.error "Invalid phone number format.")) ∧
    (((set_address c v).2 = Except.ok ()) ↔ addressOk v = true) ∧
    (addressOk v = true → set_address c v = ({ c with address := v }, Except.ok ())) ∧
    (addressOk v = false → set_address c v = (c, Except.error "Address is too short.")) := by
  unfold set_email set_phone set_address
  by_cases he : emailMatch v <;> by_cases hp : phoneMatch v <;> by_cases ha : addressOk v <;>
    simp [he, hp, ha]

/-- Witness for C7 at concrete inputs: a valid email is stored, an invalid
phone is rejected with the object left unchanged. -/
theorem claim_C7_witness :
    set_email cxCustomer "petr@example.com"
      = ({ cxCustomer with email := "petr@example.com" }, Except.ok ()) ∧
    set_phone cxCustomer "abc" = (cxCustomer, Except.error "Invalid phone number format.") :=
  ⟨(claim_C7_setter_validation cxCustomer "petr@example.com").2.1 (by decide),
   (claim_C7_setter_validation cxCustomer "abc").2.2.2.2.2.1 (by decide)⟩

/-! ## Claim C9: `Order.add_product` -/

/-- C9: `add_product` rejects every quantity below 1 with the validation
error, leaving the items untouched; every quantity at least 1 is accepted
and the line item is appended at the end, preserving insertion order. -/
theorem claim_C9_add_product (o : Order) (p : Product) (q : Int) :
    (q < 1 → add_product o p q = (o, Except.error "Quantity must be at least 1.")) ∧
    (1 ≤ q → add_product o p q = ({ o with items := o.items ++ [(p, q)] }, Except.ok ())) := by
  unfold add_product
  constructor
  · intro h
    rw [if_pos h]
  · intro h
    rw [if_neg (by omega)]

/-- Witness for C9 at concrete inputs. -/
theorem claim_C9_witness :
    add_product cxOrder cxProduct 2
      = ({ cxOrder with items := cxOrder.items ++ [(cxProduct, 2)] }, Except.ok ()) ∧
    add_product cxOrder cxProduct 0 = (cxOrder, Except.error "Quantity must be at least 1.") :=
  ⟨(claim_C9_add_product cxOrder cxProduct 2).2 (by decide),
   (claim_C9_add_product cxOrder cxProduct 0).1 (by decide)⟩

/-! ## Claim C10: `Database.add_order` and the composite primary key -/

/-- C10: with a fresh next order id (which AUTOINCREMENT guarantees), an
order carrying two line items with the same product id makes `add_order`
return the sentinel `-1` (the composite key `(order_id, product_id)`
rejects the second insert and the caught-error branch runs), while an
order with pairwise distinct line-item product ids is inserted and its
new order id is returned. -/
theorem claim_C10_add_order (db : DbState) (o : Order)
    (hfresh : ∀ it ∈ db.order_items, it.order_id ≠ db.next_order_id) :
    (¬ (o.items.map (fun pq => pq.1.id)).Nodup → (add_order db o).1 = -1) ∧
    ((o.items.map (fun pq => pq.1.id)).Nodup →
      (add_order db o).1 = (db.next_order_id : Int)) := by
  have hpids : oidPids db.next_order_id db.order_items = [] := by
    unfold oidPids
    rw [List.filter_eq_nil_iff.mpr (fun it hit => by simp [hfresh it hit])]
    rfl
  have hiff := insertOrderItems_none_iff db.next_order_id o.items db.order_items
  rw [hpids] at hiff
  constructor
  · intro hnd
    have hnone : insertOrderItems db.next_order_id db.order_items o.items = none :=
      hiff.mpr (fun hcon => hnd hcon.1)
    simp [add_order, hnone]
  · intro hnd
    have hne : insertOrderItems db.next_order_id db.order_items o.items ≠ none :=
      fun h => (hiff.mp h) ⟨hnd, by simp⟩
    obtain ⟨tbl, htbl⟩ := Option.ne_none_iff_exists'.mp hne
    simp [add_order, htbl]

/-- Witness for C10 at concrete inputs: duplicate product ids give `-1`,
distinct ones give the fresh order id 5. -/
theorem claim_C10_witness :
    (add_order cxDb cxOrder).1 = 5 ∧ (add_order cxDb cxOrderDup).1 = -1 :=
  ⟨(claim_C10_add_order cxDb cxOrder (by simp [cxDb])).2 (by decide),
   (claim_C10_add_order cxDb cxOrderDup (by simp [cxDb])).1 (by decide)⟩

/-! ## Claim C8: the phone contract -/

theorem isUnicodeDigit_ne_newline {c : Char} (h : isUnicodeDigit c = true) : c ≠ '\n' := by
  rintro rfl
  exact absurd h (by decide)

theorem isNonzeroDigit_ne_newline {c : Char} (h : isNonzeroDigit c = true) : c ≠ '\n' := by
  rintro rfl
  exact absurd h (by decide)

theorem isNonzeroDigit_ne_plus {c : Char} (h : isNonzeroDigit c = true) : c ≠ '+' := by
  rintro rfl
  exact absurd h (by decide)

theorem phoneBody_eq_true_iff (l : List Char) :
    phoneBody l = true ↔ ∃ d ds, l = d :: ds ∧ isNonzeroDigit d = true ∧
      (∀ ch ∈ ds, isUnicodeDigit ch = true) ∧ 1 ≤ ds.length ∧ ds.length ≤ 14 := by
  cases l with
  | nil => simp [phoneBody]
  | cons d ds =>
      simp only [phoneBody, Bool.and_eq_true, List.all_eq_true, decide_eq_true_eq]
      constructor
      · rintro ⟨⟨⟨h1, h2⟩, h3⟩, h4⟩
        exact ⟨d, ds, rfl, h1, h2, h3, h4⟩
      · rintro ⟨d2, ds2, heq, h1, h2, h3, h4⟩
        cases heq
        exact ⟨⟨⟨h1, h2⟩, h3⟩, h4⟩

theorem phoneCore_eq_true_iff (l : List Char) :
    phoneCore l = true ↔ ∃ (plus : Bool) (d : Char) (ds : List Char),
      l = (cond plus ['+'] []) ++ d :: ds ∧ isNonzeroDigit d = true ∧
      (∀ ch ∈ ds, isUnicodeDigit ch = true) ∧ 1 ≤ ds.length ∧ ds.length ≤ 14 := by
  unfold phoneCore
  by_cases hp : l.head? = some '+'
  · obtain ⟨t, rfl⟩ := List.head?_eq_some_iff.mp hp
    rw [if_pos hp]
    simp only [List.tail_cons]
    rw [phoneBody_eq_true_iff]
    constructor
    · rintro ⟨d, ds, rfl, h1, h2, h3, h4⟩
      exact ⟨true, d, ds, rfl, h1, h2, h3, h4⟩
    · rintro ⟨plus, d, ds, heq, h1, h2, h3, h4⟩
      cases plus with
      | true =>
          simp only [cond_true, List.cons_append, List.nil_append, List.cons.injEq] at heq
          exact ⟨d, ds, heq.2, h1, h2, h3, h4⟩
      | false =>
          simp only [cond_false, List.nil_append, List.cons.injEq] at heq
          exact absurd heq.1.symm (isNonzeroDigit_ne_plus h1)
  · rw [if_neg hp]
    rw [phoneBody_eq_true_iff]
    constructor
    · rintro ⟨d, ds, rfl, h1, h2, h3, h4⟩
      exact ⟨false, d, ds, rfl, h1, h2, h3, h4⟩
    · rintro ⟨plus, d, ds, heq, h1, h2, h3, h4⟩
      cases plus with
      | true =>
          subst heq
          exact absurd rfl hp
      | false =>
          simp only [cond_false, List.nil_append] at heq
          exact ⟨d, ds, heq, h1, h2, h3, h4⟩

theorem getLast?_digits_ne_newline (pre : List Char) (d : Char) (ds : List Char)
    (h1 : isNonzeroDigit d = true) (h2 : ∀ ch ∈ ds, isUnicodeDigit ch = true) :
    (pre ++ d :: ds).getLast? ≠ some '\n' := by
  have hne : (d :: ds) ≠ [] := List.cons_ne_nil d ds
  rw [List.getLast?_append_of_ne_nil pre hne,
    List.getLast?_eq_getLast _ hne]
  intro hcon
  have hLast : (d :: ds).getLast hne = '\n' := by
    injection hcon
  have hmem := List.getLast_mem hne
  rw [hLast] at hmem
  rcases List.mem_cons.mp hmem with heq | hmem2
  · exact isNonzeroDigit_ne_newline h1 heq.symm
  · exact isUnicodeDigit_ne_newline (h2 _ hmem2) rfl

theorem phoneMatch_eq_true_iff (s : String) :
    phoneMatch s = true ↔ ∃ (plus newline : Bool) (d : Char) (ds : List Char),
      s.data = (cond plus ['+'] []) ++ d :: ds ++ (cond newline ['\n'] []) ∧
      isNonzeroDigit d = true ∧ (∀ ch ∈ ds, isUnicodeDigit ch = true) ∧
      1 ≤ ds.length ∧ ds.length ≤ 14 := by
  unfold phoneMatch pyDollarStrip
  by_cases hnl : s.data.getLast? = some '\n'
  · obtain ⟨ys, hys⟩ := List.getLast?_eq_some_iff.mp hnl
    rw [if_pos hnl, hys, List.dropLast_concat, phoneCore_eq_true_iff]
    constructor
    · rintro ⟨plus, d, ds, rfl, h1, h2, h3, h4⟩
      refine ⟨plus, true, d, ds, ?_, h1, h2, h3, h4⟩
      simp
    · rintro ⟨plus, newline, d, ds, heq, h1, h2, h3, h4⟩
      cases newline with
      | true =>
          simp only [cond_true] at heq
          have := List.append_inj_left' heq rfl
          exact ⟨plus, d, ds, this, h1, h2, h3, h4⟩
      | false =>
          simp only [cond_false, List.append_nil] at heq
          have h5 : (ys ++ ['\n']).getLast? = some '\n' := List.getLast?_concat ys
          rw [heq] at h5
          exact absurd h5 (getLast?_digits_ne_newline _ d ds h1 h2)
  · rw [if_neg hnl, phoneCore_eq_true_iff]
    constructor
    · rintro ⟨plus, d, ds, heq, h1, h2, h3, h4⟩
      refine ⟨plus, false, d, ds, ?_, h1, h2, h3, h4⟩
      simpa using heq
    · rintro ⟨plus, newline, d, ds, heq, h1, h2, h3, h4⟩
      cases newline with
      | true =>
          simp only [cond_true] at heq
          rw [heq, List.getLast?_concat] at hnl
          exact absurd rfl hnl
      | false =>
          simp only [cond_false, List.append_nil] at heq
          exact ⟨plus, d, ds, heq, h1, h2, h3, h4⟩

/-- C8 counterexample to the claim as stated: the string `"01"` is an
optional-plus string of 2 digits, yet the setter rejects it (the source
pattern `[1-9]\d{1,14}` requires a nonzero first digit); the string
`"12\n"` is not of that shape, yet the setter accepts it (the `$` anchor
of Python `re` also matches before one final newline); and the string
`"1٢"` (`'1'` then U+0662 ARABIC-INDIC DIGIT TWO) is not an optional-plus
ASCII-digit string, yet the setter accepts it, because `\d` on a str
pattern matches any Unicode decimal digit. -/
theorem claim_C8_counterexample :
    phoneSpecPattern "01" = true ∧
    set_phone cxCustomer "01" = (cxCustomer, Except.error "Invalid phone number format.") ∧
    phoneSpecPattern "12\n" = false ∧
    (set_phone cxCustomer "12\n").2 = Except.ok () ∧
    phoneSpecPattern "1\u0662" = false ∧
    (set_phone cxCustomer "1\u0662").2 = Except.ok () := by
  refine ⟨by decide, rfl, by decide, rfl, by decide, rfl⟩

/-- C8 (amended): the phone setter accepts a string iff it is an optional
leading `+`, then a nonzero ASCII digit, then 1 to 14 further Unicode
decimal digits (so 2 to 15 digits in all; `\d` of a Python str pattern
matches every category-Nd digit, not only `0-9`), optionally followed by
one final newline which the `$` anchor of Python `re` tolerates; every
other string raises the validation error. -/
theorem claim_C8_amended (c : Customer) (s : String) :
    (((set_phone c s).2 = Except.ok ()) ↔ phoneMatch s = true) ∧
    ((set_phone c s).2 ≠ Except.ok () →
      set_phone c s = (c, Except.error "Invalid phone number format.")) ∧
    (phoneMatch s = true ↔ ∃ (plus newline : Bool) (d : Char) (ds : List Char),
      s.data = (cond plus ['+'] []) ++ d :: ds ++ (cond newline ['\n'] []) ∧
      isNonzeroDigit d = true ∧ (∀ ch ∈ ds, isUnicodeDigit ch = true) ∧
      1 ≤ ds.length ∧ ds.length ≤ 14) := by
  refine ⟨?_, ?_, phoneMatch_eq_true_iff s⟩
  · unfold set_phone
    by_cases h : phoneMatch s <;> simp [h]
  · unfold set_phone
    by_cases h : phoneMatch s <;> simp [h]

/-- Witness for C8 at concrete inputs: the valid number `"+79123456789"`
is accepted, the all-digit string with a leading zero is refused. -/
theorem claim_C8_witness :
    (set_phone cxCustomer "+79123456789").2 = Except.ok () ∧
    phoneMatch "01" = false :=
  ⟨(claim_C8_amended cxCustomer "+79123456789").1.mpr (by decide), by decide⟩

/-! ## Claim C1: the flattening postcondition -/

/-- C1 counterexample to the claim as stated: the source's placeholder
literals are the Russian strings, not `"Unknown"` / `"Unknown product"`. -/
theorem claim_C1_counterexample :
    (get_orders_dataframe [] [] [cxOrder]).map (fun r => r.customer_name) = ["Неизвестный"] ∧
    (get_orders_dataframe [] [] [cxOrder]).map (fun r => r.product_name) = ["Неизвестный товар"] ∧
    "Неизвестный" ≠ "Unknown" ∧ "Неизвестный товар" ≠ "Unknown product" :=
  ⟨rfl, rfl, by decide, by decide⟩

/-- C1 (amended): the flattened table has one row per line item, exactly
sum-over-orders-of-line-item-count rows, in input iteration order (orders
outer, line items inner); each row's total is price times quantity; the
customer display name is first name, a space, last name resolved from the
customer set, or the literal `"Неизвестный"` when the order's customer id
is absent from it; the product display name is resolved from the product
set or the literal `"Неизвестный товар"` when absent. -/
theorem claim_C1_amended (customers : List Customer) (products : List Product)
    (orders : List Order) :
    (get_orders_dataframe customers products orders).length
        = (orders.map (fun o => o.items.length)).sum ∧
    (∀ r ∈ get_orders_dataframe customers products orders,
        r.total = r.price * (r.quantity : Rat)) ∧
    (∀ r ∈ get_orders_dataframe customers products orders,
        (r.customer_id ∉ customers.map (fun c => c.id) → r.customer_name = "Неизвестный") ∧
        (r.customer_id ∈ customers.map (fun c => c.id) →
          ∃ c ∈ customers, c.id = r.customer_id ∧
            r.customer_name = c.first_name ++ " " ++ c.last_name)) ∧
    (∀ r ∈ get_orders_dataframe customers products orders,
        (r.product_id ∉ products.map (fun p => p.id) → r.product_name = "Неизвестный товар") ∧
        (r.product_id ∈ products.map (fun p => p.id) →
          ∃ p ∈ products, p.id = r.product_id ∧ r.product_name = p.name)) ∧
    (∀ (i : Nat) (hi : i < orders.length) (j : Nat)
        (hj : j < (orders.get ⟨i, hi⟩).items.length),
        (get_orders_dataframe customers products orders)[
            ((orders.take i).map (fun o => o.items.length)).sum + j]?
          = some (mkRow customers products (orders.get ⟨i, hi⟩)
              ((orders.get ⟨i, hi⟩).items.get ⟨j, hj⟩))) := by
  refine ⟨?_, ?_, ?_, ?_, ?_⟩
  · rw [get_orders_dataframe, List.length_flatMap]
    congr 1
    exact List.map_congr_left (fun o _ => by simp)
  · intro r hr
    obtain ⟨o, -, hpq⟩ := List.mem_flatMap.mp hr
    obtain ⟨pq, -, rfl⟩ := List.mem_map.mp hpq
    simp [mkRow]
  · intro r hr
    obtain ⟨o, -, hpq⟩ := List.mem_flatMap.mp hr
    obtain ⟨pq, -, rfl⟩ := List.mem_map.mp hpq
    constructor
    · intro hnot
      have : o.customer_id ∉ (customerDict customers).map Prod.fst := by
        intro hmem
        apply hnot
        obtain ⟨p, hp, hpk⟩ := List.mem_map.mp hmem
        obtain ⟨c, hc, rfl⟩ := List.mem_map.mp hp
        exact List.mem_map.mpr ⟨c, hc, by simpa using hpk⟩
      simp only [mkRow]
      exact dictGet_eq_default _ _ _ this
    · intro hmem
      have hmem2 : o.customer_id ∈ (customerDict customers).map Prod.fst := by
        obtain ⟨c, hc, hck⟩ := List.mem_map.mp hmem
        exact List.mem_map.mpr ⟨(c.id, c.first_name ++ " " ++ c.last_name),
          List.mem_map.mpr ⟨c, hc, rfl⟩, hck⟩
      obtain ⟨p, hp, hpk, hget⟩ := dictGet_eq_of_mem (customerDict customers)
        (mkRow customers products o pq).customer_id "Неизвестный" (by simpa [mkRow] using hmem2)
      obtain ⟨c, hc, rfl⟩ := List.mem_map.mp hp
      refine ⟨c, hc, by simpa [mkRow] using hpk, ?_⟩
      simp only [mkRow] at hget ⊢
      exact hget
  · intro r hr
    obtain ⟨o, -, hpq⟩ := List.mem_flatMap.mp hr
    obtain ⟨pq, -, rfl⟩ := List.mem_map.mp hpq
    constructor
    · intro hnot
      have : pq.1.id ∉ (productDict products).map Prod.fst := by
        intro hmem
        apply hnot
        obtain ⟨p2, hp2, hpk⟩ := List.mem_map.mp hmem
        obtain ⟨p, hp, rfl⟩ := List.mem_map.mp hp2
        exact List.mem_map.mpr ⟨p, hp, by simpa [mkRow] using hpk⟩
      simp only [mkRow]
      exact dictGet_eq_default _ _ _ (by simpa [mkRow] using this)
    · intro hmem
      have hmem2 : pq.1.id ∈ (productDict products).map Prod.fst := by
        obtain ⟨p, hp, hpk⟩ := List.mem_map.mp (by simpa [mkRow] using hmem)
        exact List.mem_map.mpr ⟨(p.id, p.name), List.mem_map.mpr ⟨p, hp, rfl⟩, hpk⟩
      obtain ⟨pr, hpr, hprk, hget⟩ := dictGet_eq_of_mem (productDict products)
        (mkRow customers products o pq).product_id "Неизвестный товар" (by simpa [mkRow] using hmem2)
      obtain ⟨p, hp, rfl⟩ := List.mem_map.mp hpr
      refine ⟨p, hp, by simpa [mkRow] using hprk, ?_⟩
      simp only [mkRow] at hget ⊢
      exact hget
  · intro i hi j hj
    have hj2 : j < ((orders.get ⟨i, hi⟩).items.map
        (fun pq => mkRow customers products (orders.get ⟨i, hi⟩) pq)).length := by
      simpa using hj
    have h := flatMap_index (fun o => o.items.map (fun pq => mkRow customers products o pq))
      orders i hi j hj2
    have hoff : (List.map (fun a =>
          (List.map (fun pq => mkRow customers products a pq) a.items).length)
        (List.take i orders)).sum
          = (List.map (fun o => o.items.length) (List.take i orders)).sum := by
      congr 1
      exact List.map_congr_left (fun a _ => by simp)
    rw [hoff] at h
    rw [get_orders_dataframe, h]
    congr 1
    simp [List.get_eq_getElem]

/-- Witness for C1 at a concrete input: one order with one line item gives
one row, and the row at flat index 0 is the one built from the order's
first line item. -/
theorem claim_C1_witness :
    (get_orders_dataframe [cxCustomer] [cxProduct] [cxOrder]).length = 1 ∧
    (get_orders_dataframe [cxCustomer] [cxProduct] [cxOrder])[0]?
      = some (mkRow [cxCustomer] [cxProduct] cxOrder (cxProduct, 3)) := by
  constructor
  · exact (claim_C1_amended [cxCustomer] [cxProduct] [cxOrder]).1.trans (by rfl)
  · have h5 := (claim_C1_amended [cxCustomer] [cxProduct] [cxOrder]).2.2.2.2 0
      (by simp) 0 (by simp [cxOrder])
    simpa [cxOrder] using h5

/-! ## Claim C2: top-N customers by distinct order count -/

/-- C2: on a non-empty table the operation returns a list whose length is
the number of distinct customer names capped at `top_n`, whose entries
pair a name occurring in the table with the number of distinct order ids
among that name's rows (so several line items of one order count once),
with pairwise distinct names, sorted descending by that count — hence a
customer with more distinct orders is ranked above one with fewer. -/
theorem claim_C2_top_customers (df : List Row) (top_n : Nat) (h : df ≠ []) :
    ∃ out, top_customers_by_orders df top_n = some out ∧
      out.length = min top_n (df.map (fun r => r.customer_name)).toFinset.card ∧
      (∀ p ∈ out, p.1 ∈ df.map (fun r => r.customer_name) ∧
        p.2 = ((df.filter (fun r => r.customer_name == p.1)).map
          (fun r => r.order_id)).toFinset.card) ∧
      (out.map Prod.fst).Nodup ∧
      List.Sorted byCountDesc out := by
  have hne : ¬ df.isEmpty = true := by simpa [List.isEmpty_iff] using h
  unfold top_customers_by_orders
  rw [if_neg hne]
  set base := uniqueFirst (df.map (fun r => r.customer_name)) with hbase
  set names := List.insertionSort strLe base with hnames
  set counts := names.map (fun n => (n, nuniqueOrders df n)) with hcounts
  refine ⟨_, rfl, ?_, ?_, ?_, ?_⟩
  · rw [List.length_take]
    congr 1
    calc (List.insertionSort byCountDesc counts).length
        = counts.length := (List.perm_insertionSort byCountDesc counts).length_eq
      _ = names.length := by rw [hcounts, List.length_map]
      _ = base.length := (List.perm_insertionSort _ base).length_eq
      _ = (df.map (fun r => r.customer_name)).toFinset.card := length_uniqueFirst _
  · intro p hp
    have hp2 : p ∈ List.insertionSort byCountDesc counts :=
      (List.take_sublist top_n _).subset hp
    have hp3 : p ∈ counts := (List.perm_insertionSort byCountDesc counts).subset hp2
    obtain ⟨n, hn, rfl⟩ := List.mem_map.mp hp3
    have hnb : n ∈ base := (List.perm_insertionSort _ base).subset hn
    constructor
    · exact (mem_uniqueFirst _ _).mp hnb
    · exact length_uniqueFirst _
  · have h1 : List.Perm ((List.insertionSort byCountDesc counts).map Prod.fst)
        (counts.map Prod.fst) :=
      (List.perm_insertionSort byCountDesc counts).map Prod.fst
    have h2 : counts.map Prod.fst = names := by
      rw [hcounts, List.map_map]
      exact List.map_id names
    have h3 : names.Nodup :=
      ((List.perm_insertionSort _ base).nodup_iff).mpr (nodup_uniqueFirst _)
    have h4 : ((List.insertionSort byCountDesc counts).map Prod.fst).Nodup :=
      h1.nodup_iff.mpr (h2 ▸ h3)
    rw [List.map_take]
    exact List.Nodup.sublist (List.take_sublist _ _) h4
  · exact List.Pairwise.sublist (List.take_sublist _ _)
      (List.sorted_insertionSort byCountDesc counts)

/-- Witness for C2 at a concrete input: customer A with 2 distinct orders
ranks above customer B with 1 when the top 2 are requested. -/
theorem claim_C2_witness :
    top_customers_by_orders dfTop 2 = some [("A", 2), ("B", 1)] ∧
    List.Sorted byCountDesc [(("A" : String), 2), ("B", 1)] := by
  obtain ⟨out, hout, -, -, -, hsort⟩ := claim_C2_top_customers dfTop 2 (by decide)
  have hval : top_customers_by_orders dfTop 2 = some [("A", 2), ("B", 1)] := by rfl
  refine ⟨hval, ?_⟩
  rw [hout] at hval
  cases hval
  exact hsort

/-! ## Claim C3: the order-volume time series -/

theorem dedupByOrderId_cons (r : Row) (rest : List Row) :
    dedupByOrderId (r :: rest) ≠ [] := by
  rw [dedupByOrderId, uniqueFirstByAux_cons_of_nil_seen]
  exact List.cons_ne_nil _ _

theorem minDate_le_of_mem (df : List Row) (x : Row) (hx : x ∈ dedupByOrderId df) :
    minDate df ≤ x.order_date := by
  unfold minDate
  cases hu : dedupByOrderId df with
  | nil => rw [hu] at hx; simp at hx
  | cons r rs =>
      rw [hu] at hx
      rcases List.mem_cons.mp hx with rfl | hx2
      · exact natsMin_le_init _ _
      · exact natsMin_le_mem _ _ _ (List.mem_map.mpr ⟨x, hx2, rfl⟩)

theorem le_maxDate_of_mem (df : List Row) (x : Row) (hx : x ∈ dedupByOrderId df) :
    x.order_date ≤ maxDate df := by
  unfold maxDate
  cases hu : dedupByOrderId df with
  | nil => rw [hu] at hx; simp at hx
  | cons r rs =>
      rw [hu] at hx
      rcases List.mem_cons.mp hx with rfl | hx2
      · exact init_le_natsMax _ _
      · exact mem_le_natsMax _ _ _ (List.mem_map.mpr ⟨x, hx2, rfl⟩)

theorem minDate_le_maxDate (df : List Row) (h : df ≠ []) : minDate df ≤ maxDate df := by
  obtain ⟨r, rest, rfl⟩ := List.exists_cons_of_ne_nil h
  have hne := dedupByOrderId_cons r rest
  obtain ⟨x, hx⟩ := List.exists_mem_of_ne_nil _ hne
  exact le_trans (minDate_le_of_mem _ x hx) (le_maxDate_of_mem _ x hx)

/-- C3: on a non-empty table with a monotone bucket map `b` (the model of
the day/week/month resample rule), the series deduplicates the rows to one
per order id with the first occurrence winning, and has exactly one bucket
for every bucket index between the first and the last observed one; each
bucket carries the count of deduplicated orders falling in it, so a bucket
with no orders appears with count 0, and the bucket counts add up to the
number of distinct order ids of the table. -/
theorem claim_C3_orders_dynamics (b : Nat → Nat) (df : List Row)
    (hmono : Monotone b) (h : df ≠ []) :
    ∃ l, orders_dynamics b df = some l ∧
      (∀ k, (∃ c, (k, c) ∈ l) ↔ (b (minDate df) ≤ k ∧ k ≤ b (maxDate df))) ∧
      (∀ k c, (k, c) ∈ l →
        c = ((dedupByOrderId df).filter (fun x => b x.order_date == k)).length) ∧
      (l.map Prod.fst).Nodup ∧
      (∀ oid, (dedupByOrderId df).filter (fun r => r.order_id == oid)
          = (df.filter (fun r => r.order_id == oid)).take 1) ∧
      (l.map Prod.snd).sum = (df.map (fun r => r.order_id)).toFinset.card := by
  have hne : ¬ df.isEmpty = true := by simpa [List.isEmpty_iff] using h
  have hlohi : b (minDate df) ≤ b (maxDate df) := hmono (minDate_le_maxDate df h)
  unfold orders_dynamics
  rw [if_neg hne]
  refine ⟨_, rfl, ?_, ?_, ?_, ?_, ?_⟩
  · intro k
    unfold bucketCounts
    constructor
    · rintro ⟨c, hc⟩
      obtain ⟨k2, hk2, heq⟩ := List.mem_map.mp hc
      cases heq
      have := List.mem_range'_1.mp hk2
      exact ⟨this.1, by omega⟩
    · rintro ⟨h1, h2⟩
      refine ⟨_, List.mem_map.mpr ⟨k, List.mem_range'_1.mpr ⟨h1, by omega⟩, rfl⟩⟩
  · intro k c hkc
    unfold bucketCounts at hkc
    obtain ⟨k2, -, heq⟩ := List.mem_map.mp hkc
    cases heq
    rfl
  · unfold bucketCounts
    rw [List.map_map]
    have : (Prod.fst ∘ fun k : Nat =>
        (k, ((dedupByOrderId df).filter (fun x => b x.order_date == k)).length)) = id := rfl
    rw [this, List.map_id]
    exact List.nodup_range' _ _
  · intro oid
    have := filter_uniqueFirstByAux (fun r : Row => r.order_id) df [] oid
    simpa [dedupByOrderId] using this
  · unfold bucketCounts
    rw [List.map_map]
    have hcomp : (Prod.snd ∘ fun k : Nat =>
          (k, ((dedupByOrderId df).filter (fun x => b x.order_date == k)).length))
        = fun k => ((dedupByOrderId df).filter (fun x => b x.order_date == k)).length := rfl
    rw [hcomp]
    have hpart := length_filter_partition (fun x : Row => b x.order_date)
      (dedupByOrderId df)
      (List.range' (b (minDate df)) (b (maxDate df) + 1 - b (minDate df)))
      (List.nodup_range' _ _)
      (by
        intro x hx
        rw [List.mem_range'_1]
        have h1 : b (minDate df) ≤ b x.order_date := hmono (minDate_le_of_mem df x hx)
        have h2 : b x.order_date ≤ b (maxDate df) := hmono (le_maxDate_of_mem df x hx)
        refine ⟨h1, ?_⟩
        show b x.order_date < b (minDate df) + (b (maxDate df) + 1 - b (minDate df))
        omega)
    rw [hpart]
    calc (dedupByOrderId df).length
        = ((dedupByOrderId df).map (fun r => r.order_id)).length := (List.length_map _ _).symm
      _ = (uniqueFirst (df.map (fun r => r.order_id))).length := by
          rw [dedupByOrderId, map_key_uniqueFirstByAux, uniqueFirst]
      _ = (df.map (fun r => r.order_id)).toFinset.card := length_uniqueFirst _

/-- Witness for C3 at concrete inputs: daily buckets over one order each
on days 0, 1, 2 give three buckets of count 1; with day 1 skipped the
middle bucket appears with count 0. -/
theorem claim_C3_witness :
    orders_dynamics id dfDyn = some [(0, 1), (1, 1), (2, 1)] ∧
    orders_dynamics id dfGap = some [(0, 1), (1, 0), (2, 1)] ∧
    (∃ c, ((1 : Nat), c) ∈ [((0 : Nat), (1 : Nat)), (1, 0), (2, 1)]) := by
  obtain ⟨l, hl, hdense, -, -, -, -⟩ :=
    claim_C3_orders_dynamics id dfGap (fun x y hxy => hxy) (by decide)
  refine ⟨by rfl, by rfl, ?_⟩
  have hval : orders_dynamics id dfGap = some [(0, 1), (1, 0), (2, 1)] := by rfl
  rw [hl] at hval
  cases hval
  exact (hdense 1).mpr (by decide)

/-! ## Claim C4: the customer-similarity graph -/

/-- C4: on a non-empty table, a customer's product set holds exactly the
distinct product ids of that customer's rows; the edge list holds the
triple `(a, c, w)` iff `(a, c)` is one of the ordered customer pairs, the
two product sets share at least `t` products, and `w` is the intersection
size; each unordered pair of distinct customers appears in exactly one
orientation, so at most one edge joins two customers; a table producing no
edge yields the explicit insufficient-data result, and otherwise the graph
with those nodes and edges is returned. -/
theorem claim_C4_connections_graph (t : Nat) (df : List Row) (h : df ≠ []) :
    (∀ a c w, (a, c, w) ∈ edgesOf t df ↔
      ((a, c) ∈ pairsOf (customerIdsOf df) ∧
        t ≤ (productSetOf df a ∩ productSetOf df c).card ∧
        w = (productSetOf df a ∩ productSetOf df c).card)) ∧
    (∀ a c, a ∈ customerIdsOf df → c ∈ customerIdsOf df → a ≠ c →
      (((a, c) ∈ pairsOf (customerIdsOf df) ∨ (c, a) ∈ pairsOf (customerIdsOf df)) ∧
        ¬ ((a, c) ∈ pairsOf (customerIdsOf df) ∧ (c, a) ∈ pairsOf (customerIdsOf df)))) ∧
    (customerIdsOf df).Nodup ∧
    (∀ c pid, pid ∈ productSetOf df c ↔ ∃ r ∈ df, r.customer_id = c ∧ r.product_id = pid) ∧
    (edgesOf t df = [] → customer_connections_graph t df = GraphResult.insufficientData) ∧
    (edgesOf t df ≠ [] →
      customer_connections_graph t df = GraphResult.graph (nodesOf df) (edgesOf t df)) := by
  have hne : ¬ df.isEmpty = true := by simpa [List.isEmpty_iff] using h
  refine ⟨?_, ?_, nodup_uniqueFirst _, ?_, ?_, ?_⟩
  · intro a c w
    unfold edgesOf
    constructor
    · intro hmem
      obtain ⟨ab, hab, hsome⟩ := List.mem_filterMap.mp hmem
      obtain ⟨a2, c2⟩ := ab
      by_cases hw : t ≤ (productSetOf df a2 ∩ productSetOf df c2).card
      · rw [if_pos hw] at hsome
        obtain ⟨rfl, rfl, rfl⟩ : a2 = a ∧ c2 = c ∧
            (productSetOf df a2 ∩ productSetOf df c2).card = w := by
          simpa [Prod.ext_iff] using hsome
        exact ⟨hab, hw, rfl⟩
      · rw [if_neg hw] at hsome
        exact absurd hsome (by simp)
    · rintro ⟨hpair, hle, rfl⟩
      exact List.mem_filterMap.mpr ⟨(a, c), hpair, by rw [if_pos hle]⟩
  · intro a c ha hc hac
    exact pairsOf_exactly_one (customerIdsOf df) (nodup_uniqueFirst _) a c ha hc hac
  · intro c pid
    unfold productSetOf
    rw [List.mem_toFinset]
    constructor
    · intro hmem
      obtain ⟨r, hr, rfl⟩ := List.mem_map.mp hmem
      have := List.mem_filter.mp hr
      exact ⟨r, this.1, by simpa using this.2, rfl⟩
    · rintro ⟨r, hr, hcid, rfl⟩
      exact List.mem_map.mpr ⟨r, List.mem_filter.mpr ⟨hr, by simpa using hcid⟩, rfl⟩
  · intro hedges
    unfold customer_connections_graph
    rw [if_neg hne, if_pos (by simpa [List.isEmpty_iff] using hedges)]
  · intro hedges
    unfold customer_connections_graph
    rw [if_neg hne, if_neg (by simpa [List.isEmpty_iff] using hedges)]

/-- Witness for C4 at a concrete input: two customers who each bought the
same single product give exactly one edge of weight 1 at threshold 1, and
the insufficient-data result at threshold 2. -/
theorem claim_C4_witness :
    edgesOf 1 dfPair = [(1, 2, 1)] ∧
    customer_connections_graph 1 dfPair = GraphResult.graph (nodesOf dfPair) (edgesOf 1 dfPair) ∧
    customer_connections_graph 2 dfPair = GraphResult.insufficientData :=
  ⟨by rfl,
   (claim_C4_connections_graph 1 dfPair (by decide)).2.2.2.2.2 (by decide),
   (claim_C4_connections_graph 2 dfPair (by decide)).2.2.2.2.1 (by rfl)⟩

/-! ## Claim C5: the sales breakdown -/

/-- C5 counterexample to the claim as stated: with 11 distinct products
the collapsed-tail entry is labelled `"Другие"`, not `"Other"`; and when a
product named `"Другие"` is itself among the kept top 10, the pandas
Series assignment overwrites that entry's value with the tail sum, so the
result keeps 10 entries and loses the product's own total instead of
appending an 11th entry. -/
theorem claim_C5_counterexample :
    sales_by_category dfSales11 = some [("A", 12), ("B", 11), ("C", 10), ("D", 9), ("E", 8),
      ("F", 7), ("G", 6), ("H", 5), ("I", 4), ("J", 3), ("Другие", 2)] ∧
    "Другие" ≠ "Other" ∧
    sales_by_category dfSalesOv = some [("Другие", 2), ("B", 11), ("C", 10), ("D", 9), ("E", 8),
      ("F", 7), ("G", 6), ("H", 5), ("I", 4), ("J", 3)] ∧
    (dfSalesOv.map (fun r => r.product_name)).toFinset.card = 11 :=
  ⟨by with_unfolding_all rfl, by decide, by with_unfolding_all rfl, by decide⟩

/-- C5 (amended): on a non-empty table the groups pair each product name
of the table with the sum of its rows' line totals, one group per distinct
name, sorted descending by the sum, and the group sums add up to the
table's total; with at most 10 groups the groups are returned unchanged;
with more than 10 groups the first 10 are kept and a `"Другие"` entry
holding the sum of the dropped tail is appended — unless a kept group is
itself named `"Другие"`, in which case its value is overwritten by the
tail sum and nothing is appended. -/
theorem claim_C5_amended (df : List Row) (h : df ≠ []) :
    (salesGroups df).length = (df.map (fun r => r.product_name)).toFinset.card ∧
    (∀ p ∈ salesGroups df, p.1 ∈ df.map (fun r => r.product_name) ∧
      p.2 = ((df.filter (fun r => r.product_name == p.1)).map (fun r => r.total)).sum) ∧
    ((salesGroups df).map Prod.fst).Nodup ∧
    List.Sorted bySumDesc (salesGroups df) ∧
    ((salesGroups df).map Prod.snd).sum = (df.map (fun r => r.total)).sum ∧
    ((salesGroups df).length ≤ 10 → sales_by_category df = some (salesGroups df)) ∧
    (10 < (salesGroups df).length →
      otherLabel ∉ ((salesGroups df).take 10).map Prod.fst →
        sales_by_category df = some ((salesGroups df).take 10
          ++ [(otherLabel, (((salesGroups df).drop 10).map Prod.snd).sum)])) ∧
    (10 < (salesGroups df).length →
      otherLabel ∈ ((salesGroups df).take 10).map Prod.fst →
        sales_by_category df = some (((salesGroups df).take 10).map
          (fun p => if p.1 == otherLabel
            then (p.1, (((salesGroups df).drop 10).map Prod.snd).sum) else p))) := by
  have hne : ¬ df.isEmpty = true := by simpa [List.isEmpty_iff] using h
  have hbase : (uniqueFirst (df.map (fun r => r.product_name))).Nodup := nodup_uniqueFirst _
  have hnames : (List.insertionSort strLe
      (uniqueFirst (df.map (fun r => r.product_name)))).Nodup :=
    ((List.perm_insertionSort strLe _).nodup_iff).mpr hbase
  refine ⟨?_, ?_, ?_, ?_, ?_, ?_, ?_, ?_⟩
  · rw [salesGroups]
    calc (List.insertionSort bySumDesc _).length
        = (List.map _ (List.insertionSort strLe
            (uniqueFirst (df.map (fun r => r.product_name))))).length :=
          (List.perm_insertionSort bySumDesc _).length_eq
      _ = (List.insertionSort strLe (uniqueFirst (df.map (fun r => r.product_name)))).length :=
          List.length_map _ _
      _ = (uniqueFirst (df.map (fun r => r.product_name))).length :=
          (List.perm_insertionSort strLe _).length_eq
      _ = (df.map (fun r => r.product_name)).toFinset.card := length_uniqueFirst _
  · intro p hp
    rw [salesGroups] at hp
    have hp2 := (List.perm_insertionSort bySumDesc _).subset hp
    obtain ⟨n, hn, rfl⟩ := List.mem_map.mp hp2
    have hnb := (List.perm_insertionSort strLe _).subset hn
    exact ⟨(mem_uniqueFirst _ _).mp hnb, rfl⟩
  · rw [salesGroups]
    have h1 : List.Perm ((List.insertionSort bySumDesc ((List.insertionSort strLe
          (uniqueFirst (df.map (fun r => r.product_name)))).map
            (fun n => (n, ((df.filter (fun r => r.product_name == n)).map
              (fun r => r.total)).sum)))).map Prod.fst)
        (((List.insertionSort strLe (uniqueFirst (df.map (fun r => r.product_name)))).map
            (fun n => (n, ((df.filter (fun r => r.product_name == n)).map
              (fun r => r.total)).sum))).map Prod.fst) :=
      (List.perm_insertionSort bySumDesc _).map Prod.fst
    refine h1.nodup_iff.mpr ?_
    rw [List.map_map]
    have hid : (Prod.fst ∘ fun n : String =>
        (n, ((df.filter (fun r => r.product_name == n)).map (fun r => r.total)).sum)) = id := rfl
    rw [hid, List.map_id]
    exact hnames
  · exact List.sorted_insertionSort bySumDesc _
  · rw [salesGroups]
    have h1 : List.Perm ((List.insertionSort bySumDesc ((List.insertionSort strLe
          (uniqueFirst (df.map (fun r => r.product_name)))).map
            (fun n => (n, ((df.filter (fun r => r.product_name == n)).map
              (fun r => r.total)).sum)))).map Prod.snd)
        (((List.insertionSort strLe (uniqueFirst (df.map (fun r => r.product_name)))).map
            (fun n => (n, ((df.filter (fun r => r.product_name == n)).map
              (fun r => r.total)).sum))).map Prod.snd) :=
      (List.perm_insertionSort bySumDesc _).map Prod.snd
    rw [h1.sum_eq, List.map_map]
    exact sum_map_filter_partition (fun r => r.total) (fun r => r.product_name) df _
      hnames
      (fun x hx => ((List.perm_insertionSort strLe _).mem_iff).mpr
        ((mem_uniqueFirst _ _).mpr (List.mem_map.mpr ⟨x, hx, rfl⟩)))
  · intro hle
    unfold sales_by_category
    rw [if_neg hne, if_neg (not_lt.mpr hle)]
  · intro h10 hnot
    have hany : ¬ ((salesGroups df).take 10).any (fun p => p.1 == otherLabel) = true := by
      intro hany
      obtain ⟨p, hp, hpeq⟩ := List.any_eq_true.mp hany
      exact hnot (List.mem_map.mpr ⟨p, hp, by simpa using hpeq⟩)
    unfold sales_by_category
    rw [if_neg hne, if_pos h10, if_neg hany]
  · intro h10 hmem
    obtain ⟨p, hp, hfst⟩ := List.mem_map.mp hmem
    have hany : ((salesGroups df).take 10).any (fun p => p.1 == otherLabel) = true :=
      List.any_eq_true.mpr ⟨p, hp, by simpa using hfst⟩
    unfold sales_by_category
    rw [if_neg hne, if_pos h10, if_pos hany]

/-- Witness for C5 at concrete inputs: with 11 groups the tail is
collapsed into an appended `"Другие"` entry; with at most 10 groups the
groups are returned as they are. -/
theorem claim_C5_witness :
    sales_by_category dfSales11 = some ((salesGroups dfSales11).take 10
      ++ [(otherLabel, (((salesGroups dfSales11).drop 10).map Prod.snd).sum)]) ∧
    sales_by_category dfPair = some (salesGroups dfPair) :=
  ⟨(claim_C5_amended dfSales11 (by decide)).2.2.2.2.2.2.1
      (by with_unfolding_all decide) (by with_unfolding_all decide),
   (claim_C5_amended dfPair (by decide)).2.2.2.2.2.1 (by with_unfolding_all decide)⟩

/-! ## Claim C6: the empty-input policy -/

/-- C6 counterexample to the claim as stated: with an empty order set but
a non-empty customer set, the geographic distribution does not return the
no-data marker — it renders a real city histogram, because
`customer_geography` is driven by the customers table alone. -/
theorem claim_C6_counterexample :
    get_orders_dataframe [cxCustomer] [] [] = [] ∧
    customer_geography [cxCustomer] = some [("Москва", 1)] ∧
    some [(("Москва" : String), 1)] ≠ (none : Option (List (String × Nat))) :=
  ⟨rfl, rfl, by decide⟩

/-- C6 (amended): for an empty order set the four order-driven report
operations (top-N customers, order-volume series, similarity graph, sales
breakdown) return the explicit no-data marker for any customer and
product sets and any parameters; the geographic distribution instead
returns the no-data marker exactly when the customer set is empty,
regardless of the order set. -/
theorem claim_C6_amended (customers : List Customer) (products : List Product)
    (b : Nat → Nat) (t n : Nat) :
    top_customers_by_orders (get_orders_dataframe customers products []) n = none ∧
    orders_dynamics b (get_orders_dataframe customers products []) = none ∧
    customer_connections_graph t (get_orders_dataframe customers products [])
      = GraphResult.noData ∧
    sales_by_category (get_orders_dataframe customers products []) = none ∧
    (customer_geography customers = none ↔ customers = []) := by
  have hdf : get_orders_dataframe customers products [] = [] := rfl
  rw [hdf]
  refine ⟨rfl, rfl, rfl, rfl, ?_⟩
  unfold customer_geography
  by_cases hc : customers.isEmpty
  · rw [if_pos hc]
    simp only [List.isEmpty_iff] at hc
    simp [hc]
  · rw [if_neg hc]
    simp only [List.isEmpty_iff] at hc
    constructor
    · intro hcon
      exact absurd hcon (by simp)
    · intro hcon
      exact absurd hcon hc

/-- Witness for C6 at concrete inputs: an empty order set short-circuits
the order-driven reports, and an empty customer set short-circuits the
geographic one. -/
theorem claim_C6_witness :
    top_customers_by_orders (get_orders_dataframe [cxCustomer] [cxProduct] []) 5 = none ∧
    customer_geography [] = none :=
  ⟨(claim_C6_amended [cxCustomer] [cxProduct] id 2 5).1,
   (claim_C6_amended [] [] id 2 5).2.2.2.2.mpr rfl⟩

end ShopSpec
